import Mathlib

/-!
Verification of the shccn shell-script metrics engine (pkg/shccn/shccn.go).
Lines are embedded as Lean strings; the regular-expression constants of the
source are embedded as executable matchers over character lists.
-/

namespace shccn

/-- Prefix test: leadEq p l is true when p is an initial segment of l. -/
def leadEq : List Char → List Char → Bool
  | [], _ => true
  | _ :: _, [] => false
  | a :: as, b :: bs => a == b && leadEq as bs

/-- Substring test: containsSub sub l is true when sub occurs contiguously in l.
Embeds an unanchored Go regexp match of a literal pattern. -/
def containsSub (sub : List Char) : List Char → Bool
  | [] => leadEq sub []
  | c :: rest => leadEq sub (c :: rest) || containsSub sub rest

/-- Quote characters recognised by the heuristics: single and double quote. -/
def isQuoteChar (c : Char) : Bool := c == '\x27' || c == '\x22'

/-- quoteBefore sub seen l is true when some quote character occurs in l
strictly before an occurrence of sub (seen records a quote already passed).
Embeds Go patterns of the shape dot-star quote dot-star sub. -/
def quoteBefore (sub : List Char) : Bool → List Char → Bool
  | _, [] => false
  | seen, c :: rest => (seen && leadEq sub (c :: rest)) || quoteBefore sub (seen || isQuoteChar c) rest

/-- The character class matched by backslash-s in Go regexp: tab, newline,
form feed, carriage return, space. -/
def goWs (c : Char) : Bool := c == ' ' || c == '\x09' || c == '\x0a' || c == '\x0c' || c == '\x0d'

/-- Embeds functionEndExp, the Go regexp consisting of a single closing brace:
true when the line contains a closing brace. -/
def functionEndExp (v : String) : Bool := containsSub ['\x7d'] v.toList

/-- Embeds functionNotEndExp: true when a quote character occurs strictly
before some closing brace on the line. -/
def functionNotEndExp (v : String) : Bool := quoteBefore ['\x7d'] false v.toList

/-- Embeds ccnExp: true when the line contains if, while, for or the
double-semicolon case terminator as a substring. -/
def ccnExp (v : String) : Bool :=
  containsSub "if".toList v.toList || containsSub "while".toList v.toList ||
  containsSub "for".toList v.toList || containsSub ";;".toList v.toList

/-- Embeds NotCcnExp: true when a quote character occurs strictly before an
occurrence of if, while or for. The pattern does not mention the
double-semicolon terminator. -/
def NotCcnExp (v : String) : Bool :=
  quoteBefore "if".toList false v.toList || quoteBefore "while".toList false v.toList ||
  quoteBefore "for".toList false v.toList

/-- Embeds conditionExp applied to one token: true when the token contains
a double ampersand or a double vertical bar. -/
def conditionExp (token : List Char) : Bool :=
  containsSub "&&".toList token || containsSub "||".toList token

/-- Embeds strings.Split(v, onespace) from Go: split on every single space
character, producing length-plus-one pieces for n separators. -/
def splitSp : List Char → List (List Char)
  | [] => [[]]
  | ' ' :: rest => [] :: splitSp rest
  | c :: rest =>
    match splitSp rest with
    | [] => [[c]]
    | piece :: more => (c :: piece) :: more

/-- Embeds the loop body of removeQuote: a two-state scan that drops the
single-quote characters and everything between a pair of them. -/
def removeQuoteAux : Bool → List Char → List Char
  | _, [] => []
  | true, c :: rest => if c == '\x27' then removeQuoteAux false rest else removeQuoteAux true rest
  | false, c :: rest => if c == '\x27' then removeQuoteAux true rest else c :: removeQuoteAux false rest

/-- Embeds removeQuote: remove all substrings delimited by single quotes. -/
def removeQuote (line : String) : String := ⟨removeQuoteAux false line.toList⟩

/-- Helper for functionStartExp: after an opening parenthesis, skip
whitespace, expect a closing parenthesis, skip whitespace, expect an
opening brace. -/
def closeAfterParen (l : List Char) : Bool :=
  match l.dropWhile goWs with
  | ')' :: rest =>
    match rest.dropWhile goWs with
    | '\x7b' :: _ => true
    | _ => false
  | _ => false

/-- Embeds functionStartExp, the Go regexp for the function-declaration
idiom: an opening parenthesis, optional whitespace, a closing parenthesis,
optional whitespace, an opening brace, anywhere in the line. -/
def functionStartExp : List Char → Bool
  | [] => false
  | '(' :: rest => closeAfterParen rest || functionStartExp rest
  | _ :: rest => functionStartExp rest

/-- Embeds isBlankLine: remove every space character (exactly U+0020) and
test whether the remainder is empty. -/
def isBlankLine (line : String) : Bool :=
  (line.toList.filter (fun c => !(c == ' '))).length == 0

/-- Embeds isCommentLine: the anchored Go pattern of optional whitespace
followed by a hash sign; true when the first non-whitespace character of the
line is a hash sign. -/
def isCommentLine (line : String) : Bool :=
  match line.toList.dropWhile goWs with
  | [] => false
  | c :: _ => c == '#'

/-- Embeds isFunctionLine: compute a copy of the line with double quotes
replaced by single quotes; if that copy contains a single quote, strip the
single-quoted substrings of the ORIGINAL line (as the source does); finally
test the function-declaration pattern. -/
def isFunctionLine (line : String) : Bool :=
  let tmp := line.toList.map (fun c => if c == '\x22' then '\x27' else c)
  let stripped := if tmp.contains '\x27' then (removeQuote line).toList else line.toList
  functionStartExp stripped

/-- Embeds the strings.Replacer of GetFunctionName: scanning left to right,
drop the literal word function, drop opening braces, parentheses and
spaces, keep everything else. -/
def getFunctionNameAux : List Char → List Char
  | 'f' :: 'u' :: 'n' :: 'c' :: 't' :: 'i' :: 'o' :: 'n' :: rest => getFunctionNameAux rest
  | '\x7b' :: rest => getFunctionNameAux rest
  | '(' :: rest => getFunctionNameAux rest
  | ')' :: rest => getFunctionNameAux rest
  | ' ' :: rest => getFunctionNameAux rest
  | c :: rest => c :: getFunctionNameAux rest
  | [] => []

/-- Embeds GetFunctionName. -/
def GetFunctionName (line : String) : String := ⟨getFunctionNameAux line.toList⟩

/-- Append v to the entry of key k in an insertion-ordered association list,
creating the entry when absent. Embeds the Go map update
result[funcname] = append(result[funcname], v). -/
def updMap : List (String × List String) → String → String → List (String × List String)
  | [], k, v => [(k, [v])]
  | (k2, vs) :: rest, k, v =>
    if k2 == k then (k2, vs ++ [v]) :: rest else (k2, vs) :: updMap rest k v

/-- Embeds the scanning loop of GetFunctions: the flag is the INSIDE state,
funcname the active function name, result the accumulated buckets. -/
def GetFunctionsAux : Bool → String → List (String × List String) → List String → List (String × List String)
  | _, _, result, [] => result
  | true, funcname, result, v :: rest =>
    if functionEndExp v then
      if functionNotEndExp v then GetFunctionsAux true funcname (updMap result funcname v) rest
      else GetFunctionsAux false "" result rest
    else GetFunctionsAux true funcname (updMap result funcname v) rest
  | false, _, result, v :: rest =>
    if isFunctionLine v then GetFunctionsAux true (GetFunctionName v) result rest
    else GetFunctionsAux false "BARE_CODE" (updMap result "BARE_CODE" v) rest

/-- Embeds GetFunctions: group a code-only line sequence into named function
bodies plus the BARE_CODE bucket. The Go map is embedded as an
insertion-ordered association list. -/
def GetFunctions (code : List String) : List (String × List String) :=
  GetFunctionsAux false "" [] code

/-- The contribution of the token loop of CalculateCCN on one line: the
number of space-separated tokens in which conditionExp matches. -/
def condHits (v : String) : Nat := (splitSp v.toList).countP conditionExp

/-- One iteration of the CalculateCCN loop on accumulator result and line v.
When ccnExp matches and NotCcnExp also matches, the source continues to the
next line, skipping both the keyword increment and the token loop. -/
def lineStep (result : Nat) (v : String) : Nat :=
  if ccnExp v then
    if NotCcnExp v then result
    else result + 1 + condHits v
  else result + condHits v

/-- Embeds CalculateCCN: fold the per-line step over the body lines,
starting from one. -/
def CalculateCCN (code : List String) : Nat := List.foldl lineStep 1 code

/-- Embeds the FileContents struct: a file name and its raw lines. -/
structure FileContents where
  Name : String
  Lines : List String

/-- Embeds GetLines: the number of raw lines. -/
def FileContents.GetLines (fc : FileContents) : Nat := fc.Lines.length

/-- Embeds GetBlankLines: the number of blank lines. -/
def FileContents.GetBlankLines (fc : FileContents) : Nat :=
  fc.Lines.countP (fun v => isBlankLine v)

/-- Embeds the indexed loop of GetCommentLines, which skips index zero. -/
def getCommentLinesFrom : Nat → List String → Nat
  | _, [] => 0
  | 0, _ :: rest => getCommentLinesFrom 1 rest
  | i + 1, v :: rest => (if isCommentLine v then 1 else 0) + getCommentLinesFrom (i + 2) rest

/-- Embeds GetCommentLines: comment lines counted from index one onwards. -/
def FileContents.GetCommentLines (fc : FileContents) : Nat :=
  getCommentLinesFrom 0 fc.Lines

/-- Embeds GetCodeLines: total minus blanks minus comments, over the
integers as in Go. -/
def FileContents.GetCodeLines (fc : FileContents) : Int :=
  (fc.GetLines : Int) - (fc.GetBlankLines : Int) - (fc.GetCommentLines : Int)

/-- Embeds GetFunctionLines: the number of function-declaration lines. -/
def FileContents.GetFunctionLines (fc : FileContents) : Nat :=
  fc.Lines.countP (fun v => isFunctionLine v)

/-- Embeds GetCodes: drop comment lines and blank lines, keep the rest in
order. Note this filter has no index-zero exception. -/
def GetCodes : List String → List String
  | [] => []
  | v :: rest =>
    if isCommentLine v then GetCodes rest
    else if isBlankLine v then GetCodes rest
    else v :: GetCodes rest

/-! Helper lemmas. -/

/-- One CCN step never decreases the accumulator. -/
theorem lineStep_le (r : Nat) (v : String) : r ≤ lineStep r v := by
  unfold lineStep
  split_ifs <;> omega

/-- Folding the CCN step never decreases the accumulator. -/
theorem foldl_lineStep_le : ∀ (code : List String) (r : Nat), r ≤ List.foldl lineStep r code := by
  intro code
  induction code with
  | nil => intro r; simp
  | cons v rest ih =>
    intro r
    rw [List.foldl_cons]
    exact le_trans (lineStep_le r v) (ih (lineStep r v))

/-- The CCN step commutes with adding a constant to the accumulator. -/
theorem lineStep_add (r k : Nat) (v : String) : lineStep (r + k) v = lineStep r v + k := by
  unfold lineStep
  split_ifs <;> omega

/-- Folding the CCN step commutes with adding a constant to the accumulator. -/
theorem foldl_lineStep_shift : ∀ (code : List String) (r k : Nat),
    List.foldl lineStep (r + k) code = List.foldl lineStep r code + k := by
  intro code
  induction code with
  | nil => intro r k; simp
  | cons v rest ih =>
    intro r k
    rw [List.foldl_cons, List.foldl_cons, lineStep_add, ih]

/-- Per-line decomposition of CalculateCCN: each line contributes a keyword
part and a token-loop part, the latter suppressed when the quote exception
fires. -/
theorem calculateCCN_cons (v : String) (code : List String) :
    CalculateCCN (v :: code) = CalculateCCN code +
      ((if ccnExp v = true then (if NotCcnExp v = true then 0 else 1) else 0) +
       (if ccnExp v = true ∧ NotCcnExp v = true then 0 else condHits v)) := by
  have h1 : lineStep 1 v = 1 +
      ((if ccnExp v = true then (if NotCcnExp v = true then 0 else 1) else 0) +
       (if ccnExp v = true ∧ NotCcnExp v = true then 0 else condHits v)) := by
    unfold lineStep
    by_cases hc : ccnExp v = true <;> by_cases hn : NotCcnExp v = true <;>
      simp [hc, hn] <;> omega
  unfold CalculateCCN
  rw [List.foldl_cons, h1, foldl_lineStep_shift]

/-- The indexed comment-count loop, started past index zero, counts every
matching line. -/
theorem getCommentLinesFrom_pos : ∀ (l : List String) (i : Nat),
    getCommentLinesFrom (i + 1) l = List.countP isCommentLine l := by
  intro l
  induction l with
  | nil => intro i; rfl
  | cons v rest ih =>
    intro i
    have h2 : getCommentLinesFrom (i + 1) (v :: rest) =
        (if isCommentLine v = true then 1 else 0) + getCommentLinesFrom (i + 2) rest := rfl
    have h3 : getCommentLinesFrom (i + 2) rest = List.countP isCommentLine rest := ih (i + 1)
    rw [h2, h3, List.countP_cons]
    by_cases hv : isCommentLine v = true <;> simp [hv] <;> omega

/-- A comment line is never blank: its first non-whitespace character is a
hash sign, which survives space removal. -/
theorem comment_not_blank (v : String) (h : isCommentLine v = true) : isBlankLine v = false := by
  unfold isCommentLine at h
  cases hd : v.toList.dropWhile goWs with
  | nil => rw [hd] at h; simp at h
  | cons c tl =>
    rw [hd] at h
    have hc : c = '#' := by simpa using h
    have hmem : c ∈ v.toList := by
      have hmem2 : c ∈ v.toList.dropWhile goWs := by
        rw [hd]; exact List.mem_cons_self c tl
      exact (List.dropWhile_sublist goWs).mem hmem2
    unfold isBlankLine
    simp [List.length_eq_zero, List.filter_eq_nil_iff]
    exact ⟨c, hmem, by rw [hc]; decide⟩

/-- Length accounting for the comment-and-blank filter: kept lines plus
comment lines plus blank lines add up to all lines. -/
theorem getCodes_length : ∀ l : List String,
    (GetCodes l).length + List.countP isCommentLine l + List.countP isBlankLine l = l.length := by
  intro l
  induction l with
  | nil => rfl
  | cons v rest ih =>
    by_cases hc : isCommentLine v = true
    · have hb : isBlankLine v = false := comment_not_blank v hc
      simp [GetCodes, hc, hb, List.countP_cons]
      omega
    · by_cases hb : isBlankLine v = true
      · simp [GetCodes, hc, hb, List.countP_cons]
        omega
      · simp [GetCodes, hc, hb, List.countP_cons]
        omega

/-- Once scanning bare code with the accumulator holding a single BARE_CODE
bucket, every remaining non-declaration line is appended to that bucket. -/
theorem bareAux : ∀ (code acc : List String) (fn : String),
    (∀ v ∈ code, isFunctionLine v = false) →
    GetFunctionsAux false fn [("BARE_CODE", acc)] code = [("BARE_CODE", acc ++ code)] := by
  intro code
  induction code with
  | nil => intro acc fn _; simp [GetFunctionsAux]
  | cons v rest ih =>
    intro acc fn h
    have hv : isFunctionLine v = false := h v (List.mem_cons_self v rest)
    have hrest : ∀ u ∈ rest, isFunctionLine u = false :=
      fun u hu => h u (List.mem_cons_of_mem v hu)
    have hupd : updMap [("BARE_CODE", acc)] "BARE_CODE" v = [("BARE_CODE", acc ++ [v])] := by
      simp [updMap]
    simp only [GetFunctionsAux, hv, Bool.false_eq_true, if_false, hupd]
    rw [ih (acc ++ [v]) "BARE_CODE" hrest]
    simp

/-! Claim theorems. -/

/-- Claim C1 (code bug): on the concrete code sequence consisting of a
declaration, one body line and a closing-brace terminator, GetFunctions
returns the body WITHOUT the terminator line. The claim and the source
comment say the terminator is appended to the body before the scanner
leaves the function; the terminator branch of the code skips the append. -/
theorem C1_terminator_line_dropped :
    GetFunctions ["f() \x7b", "echo hi", "\x7d"] = [("f", ["echo hi"])] := by decide

/-- Claim C2 (code bug): on a line whose function-declaration idiom occurs
only inside a double-quoted string, isFunctionLine returns true. The claim
says the quote normalization feeds the stripping step so such a line is
rejected; the code strips the original line instead, so the double-quoted
brace still matches. -/
theorem C2_double_quoted_brace_matches :
    isFunctionLine "echo \x22foo() \x7b\x22" = true := by decide

/-- Claim C3, counterexample: a line whose only keyword-pattern match is a
double semicolon inside double quotes still increments the count, because
the exception pattern NotCcnExp covers only if, while and for. The claim
predicts a count of one for this single-line body. -/
theorem C3_counterexample : CalculateCCN ["echo \x22;;\x22"] ≠ 1 := by decide

/-- Claim C3 as amended: a body line matching the keyword pattern
contributes exactly one keyword increment unless a quote character precedes
an occurrence of if, while or for on the line (the NotCcnExp exception,
which does not cover the double-semicolon terminator); when the exception
fires, the whole line is skipped, including its token loop. -/
theorem C3_keyword_increment (v : String) (code : List String) (h : ccnExp v = true) :
    CalculateCCN (v :: code) = CalculateCCN code +
      (if NotCcnExp v = true then 0 else 1 + condHits v) := by
  rw [calculateCCN_cons]
  by_cases hn : NotCcnExp v = true <;> simp [h, hn]

/-- Witness for the amended claim C3 at a concrete keyword line. -/
theorem C3_keyword_increment_witness : CalculateCCN ["if x"] = 2 := by
  rw [C3_keyword_increment "if x" [] (by decide)]
  decide

/-- Claim C4, counterexample: a single token holding two logical-connective
occurrences contributes only one increment, because the token test is a
boolean match and not an occurrence count. The claim predicts three for
this single-line body; the code yields two. -/
theorem C4_counterexample : CalculateCCN ["a&&b&&c"] ≠ 3 := by decide

/-- Claim C4 as amended: unless the quote exception skips the line
entirely, the line is split on single spaces and the count rises by one for
each token in which a double ampersand or double vertical bar occurs at
least once, independently of how many occurrences the token holds; the
keyword part contributes separately. -/
theorem C4_connective_tokens (v : String) (code : List String) :
    CalculateCCN (v :: code) = CalculateCCN code +
      (if ccnExp v = true then (if NotCcnExp v = true then 0 else 1) else 0) +
      (if ccnExp v = true ∧ NotCcnExp v = true then 0
       else (splitSp v.toList).countP conditionExp) := by
  rw [calculateCCN_cons]
  unfold condHits
  ring

/-- Claim C5: for every file, code count plus comment count plus blank
count equals the total line count. -/
theorem C5_count_partition (fc : FileContents) :
    fc.GetCodeLines + (fc.GetCommentLines : Int) + (fc.GetBlankLines : Int) =
      (fc.GetLines : Int) := by
  unfold FileContents.GetCodeLines
  ring

/-- Claim C6: CalculateCCN returns at least one on every body, including
the empty one. -/
theorem C6_ccn_at_least_one (code : List String) : 1 ≤ CalculateCCN code :=
  foldl_lineStep_le code 1

/-- Claim C7: the comment count equals the number of comment-pattern lines
among all lines except the first; the first line is never counted even when
its text matches the pattern, while the same text later is counted. -/
theorem C7_comment_count_skips_first_line :
    (∀ (nm l0 : String) (rest : List String),
      (FileContents.mk nm (l0 :: rest)).GetCommentLines = List.countP isCommentLine rest) ∧
    isCommentLine "# comment" = true ∧
    (FileContents.mk "s" ["# comment"]).GetCommentLines = 0 ∧
    (FileContents.mk "s" ["x", "# comment"]).GetCommentLines = 1 := by
  refine ⟨?_, by decide, by decide, by decide⟩
  intro nm l0 rest
  have h := getCommentLinesFrom_pos rest 0
  simpa [FileContents.GetCommentLines, getCommentLinesFrom] using h

/-- Claim C8: a line is blank exactly when every character of it is the
space character; the empty line and an all-space line are blank and a
tab-only line is not. -/
theorem C8_blank_iff_only_spaces :
    (∀ line : String, isBlankLine line = true ↔ ∀ c ∈ line.toList, c = ' ') ∧
    isBlankLine "" = true ∧ isBlankLine "   " = true ∧ isBlankLine "\x09" = false := by
  refine ⟨?_, by decide, by decide, by decide⟩
  intro line
  unfold isBlankLine
  simp [List.length_eq_zero, List.filter_eq_nil_iff]

/-- Claim C9, counterexample: on the empty code sequence, which trivially
has no declaration line, GetFunctions returns the empty mapping rather than
a single BARE_CODE bucket. -/
theorem C9_counterexample : GetFunctions [] ≠ [("BARE_CODE", [])] := by decide

/-- Claim C9 as amended: for every NONEMPTY code sequence in which no line
is a function declaration, GetFunctions returns exactly one bucket, named
BARE_CODE, whose body is the whole input in order; the empty sequence
yields the empty mapping. -/
theorem C9_bare_code_bucket (code : List String) (hne : code ≠ [])
    (h : ∀ v ∈ code, isFunctionLine v = false) :
    GetFunctions code = [("BARE_CODE", code)] := by
  cases code with
  | nil => exact absurd rfl hne
  | cons v rest =>
    have hv : isFunctionLine v = false := h v (List.mem_cons_self v rest)
    have hrest : ∀ u ∈ rest, isFunctionLine u = false :=
      fun u hu => h u (List.mem_cons_of_mem v hu)
    unfold GetFunctions
    have hupd : updMap [] "BARE_CODE" v = [("BARE_CODE", [v])] := rfl
    simp only [GetFunctionsAux, hv, Bool.false_eq_true, if_false, hupd]
    rw [bareAux rest [v] "BARE_CODE" hrest]
    simp

/-- Witness for the amended claim C9 at a concrete two-line script. -/
theorem C9_bare_code_bucket_witness :
    GetFunctions ["echo hi", "ls"] = [("BARE_CODE", ["echo hi", "ls"])] :=
  C9_bare_code_bucket ["echo hi", "ls"] (by decide) (by decide)

/-- Claim C10: the comment filter of GetCodes has no index-zero exception,
so a first line matching the comment pattern is dropped from the code-only
sequence even though the file-level counts classify it as code; the
filtered length is then strictly below the file-level code count. -/
theorem C10_first_line_filtered (nm l0 : String) (rest : List String)
    (h : isCommentLine l0 = true) :
    GetCodes (l0 :: rest) = GetCodes rest ∧
    ((GetCodes (l0 :: rest)).length : Int) < (FileContents.mk nm (l0 :: rest)).GetCodeLines := by
  have hb : isBlankLine l0 = false := comment_not_blank l0 h
  have h1 : GetCodes (l0 :: rest) = GetCodes rest := by simp [GetCodes, h]
  refine ⟨h1, ?_⟩
  have hlen := getCodes_length rest
  have h2 : List.countP isBlankLine (l0 :: rest) = List.countP isBlankLine rest := by
    simp [List.countP_cons, hb]
  have h3 : getCommentLinesFrom 0 (l0 :: rest) = List.countP isCommentLine rest := by
    have h4 : getCommentLinesFrom 0 (l0 :: rest) = getCommentLinesFrom 1 rest := rfl
    rw [h4]
    simpa using getCommentLinesFrom_pos rest 0
  show ((GetCodes (l0 :: rest)).length : Int) <
    (((l0 :: rest).length : Nat) : Int) - (List.countP isBlankLine (l0 :: rest) : Int) -
      (getCommentLinesFrom 0 (l0 :: rest) : Int)
  rw [h1, h2, h3, List.length_cons]
  omega

/-- Witness for claim C10 at a concrete file starting with a shebang. -/
theorem C10_first_line_filtered_witness :
    GetCodes ["#!/bin/sh", "echo hi"] = GetCodes ["echo hi"] ∧
    ((GetCodes ["#!/bin/sh", "echo hi"]).length : Int) <
      (FileContents.mk "s" ["#!/bin/sh", "echo hi"]).GetCodeLines :=
  C10_first_line_filtered "s" "#!/bin/sh" ["echo hi"] (by decide)

end shccn
